import Mathlib

/-!
Shallow embedding of the Raft log subsystem of this repository (`log.go`):
the `raftLog` structure combining a durable `Storage` view with an
`unstable` in-memory tail, and its append / commit / apply operations.

Indices, terms and byte sizes are embedded as `Nat`.  A source function
that can call `logger.Panicf` (a fatal abort) is embedded with an `Option`
result: `none` models the fatal abort, `some` the returning behaviour.
The `unstable` buffer, the `Storage` collaborator and the entry-size
helpers are not part of `src/`; they are modelled from the specification
(sections 3, 4.1 and 4.2), as marked on each definition.
-/

/-- A log entry `(index, term, payload)`; `bytes` is the encoded size of
the entry used for byte-budget accounting. -/
structure Entry where
  index : Nat
  term : Nat
  bytes : Nat
deriving DecidableEq

/-- Snapshot metadata `(lastIncludedIndex, lastIncludedTerm)`. -/
structure Snapshot where
  index : Nat
  term : Nat
deriving DecidableEq

/-- Storage errors surfaced to the log core: `ErrCompacted` (index below
the first available one) and `ErrUnavailable` (index above the last
available one).  The modelled Storage produces no other errors, so the
source branches that abort on an unexpected Storage error are dead in the
embedding. -/
inductive Err where
  | compacted
  | unavailable
deriving DecidableEq

/-- Modelled from the spec: total encoded size of a list of entries
(helper `entsSize`, not part of `src/`). -/
def entsSize (ents : List Entry) : Nat :=
  ents.foldr (fun e acc => e.bytes + acc) 0

/-- Helper for `limitSize`: keep entries while the running total
(`consumed` so far) stays within `maxSize`. -/
def sizedRest (ents : List Entry) (maxSize consumed : Nat) : List Entry :=
  match ents with
  | [] => []
  | e :: rest =>
    if maxSize < consumed + e.bytes then []
    else e :: sizedRest rest maxSize (consumed + e.bytes)

/-- Modelled from the spec: `limitSize` (not part of `src/`) returns the
longest prefix of `ents` whose total size stays within `maxSize`, always
keeping the first entry even when it alone exceeds the limit. -/
def limitSize (ents : List Entry) (maxSize : Nat) : List Entry :=
  match ents with
  | [] => []
  | e :: rest => e :: sizedRest rest maxSize e.bytes

/-- Modelled from the spec: the `Storage` collaborator (spec section 4.2),
represented by the durable state it abstracts: the latest snapshot
metadata plus the stable entries, stored at indices
`snapIndex + 1 .. snapIndex + ents.length`. -/
structure StorageM where
  snapIndex : Nat
  snapTerm : Nat
  ents : List Entry
deriving DecidableEq

/-- Modelled from the spec: `Storage.FirstIndex()`, one above the last
index included in the most recent snapshot. -/
def StorageM.firstIndexS (s : StorageM) : Nat := s.snapIndex + 1

/-- Modelled from the spec: `Storage.LastIndex()`, the largest index
durably stored. -/
def StorageM.lastIndexS (s : StorageM) : Nat := s.snapIndex + s.ents.length

/-- Modelled from the spec: `Storage.Term(i)`, valid for
`FirstIndex()-1 ≤ i ≤ LastIndex()`; the term of index `FirstIndex()-1`
is retained from the snapshot for matching purposes. -/
def StorageM.termS (s : StorageM) (i : Nat) : Except Err Nat :=
  if i < s.snapIndex then .error .compacted
  else if i = s.snapIndex then .ok s.snapTerm
  else
    match s.ents[i - s.snapIndex - 1]? with
    | some e => .ok e.term
    | none => .error .unavailable

/-- Modelled from the spec: `Storage.Entries(lo, hi, maxBytes)` returns
the stable entries in `[lo, hi)` up to the byte budget; `Compacted` when
`lo` is below the first available index, `Unavailable` when `hi` reaches
above the last available one. -/
def StorageM.entriesS (s : StorageM) (lo hi maxSize : Nat) : Except Err (List Entry) :=
  if lo ≤ s.snapIndex then .error .compacted
  else if s.lastIndexS + 1 < hi then .error .unavailable
  else .ok (limitSize ((s.ents.drop (lo - s.snapIndex - 1)).take (hi - lo)) maxSize)

/-- Modelled from the spec: the `unstable` buffer (spec section 4.1), an
in-memory tail of entries with contiguous indices starting at `offset`,
plus at most one pending snapshot; its Go definition is not in `src/`. -/
structure Unstable where
  entries : List Entry
  offset : Nat
  offsetInProgress : Nat
  snapshot : Option Snapshot
  snapshotInProgress : Bool
deriving DecidableEq

/-- Modelled from the spec: `unstable.maybeFirstIndex()` returns
`snapshot.lastIncludedIndex + 1` when a snapshot is pending, else none. -/
def Unstable.maybeFirstIndex (u : Unstable) : Option Nat :=
  u.snapshot.map (fun s => s.index + 1)

/-- Modelled from the spec: `unstable.maybeLastIndex()`, the last index
across entries and snapshot, or none when both are absent. -/
def Unstable.maybeLastIndex (u : Unstable) : Option Nat :=
  if u.entries.length ≠ 0 then some (u.offset + u.entries.length - 1)
  else u.snapshot.map (fun s => s.index)

/-- Modelled from the spec: `unstable.maybeTerm(i)` returns the term of
the buffered entry at `i` when `i` is covered by `entries`, the snapshot
term when `i` is its last included index, else none. -/
def Unstable.maybeTerm (u : Unstable) (i : Nat) : Option Nat :=
  if u.offset ≤ i ∧ i < u.offset + u.entries.length then
    (u.entries[i - u.offset]?).map Entry.term
  else
    match u.snapshot with
    | some s => if i = s.index then some s.term else none
    | none => none

/-- Modelled from the spec: `unstable.slice(lo, hi)`, the view
`entries[lo-offset .. hi-offset)`; out-of-bounds access is fatal. -/
def Unstable.slice (u : Unstable) (lo hi : Nat) : Option (List Entry) :=
  if hi < lo ∨ lo < u.offset ∨ u.offset + u.entries.length < hi then none
  else some ((u.entries.drop (lo - u.offset)).take (hi - lo))

/-- Modelled from the spec: `unstable.truncateAndAppend(ents)`.  With
`after` the index of the first new entry: extend when `after` lands right
past the buffered entries, replace the whole buffer when `after ≤ offset`,
otherwise truncate the buffer to `[offset, after)` (fatal when `after` is
past the buffered range, per the `slice` bounds) and extend.  Finally
`offsetInProgress := min(offsetInProgress, after)`. -/
def Unstable.truncateAndAppend (u : Unstable) (ents : List Entry) : Option Unstable :=
  match ents.head? with
  | none => some u
  | some e0 =>
    if e0.index = u.offset + u.entries.length then
      some { u with entries := u.entries ++ ents,
                    offsetInProgress := min u.offsetInProgress e0.index }
    else if e0.index ≤ u.offset then
      some { u with entries := ents, offset := e0.index,
                    offsetInProgress := min u.offsetInProgress e0.index }
    else
      match u.slice u.offset e0.index with
      | none => none
      | some kept =>
        some { u with entries := kept ++ ents,
                      offsetInProgress := min u.offsetInProgress e0.index }

/-- Modelled from the spec: `unstable.stableTo(i, t)`.  Ignored unless
`i` lies in the buffered entries and the entry at `i` has term `t`;
otherwise drop a pending snapshot whose last index is at most `i`, remove
the buffered prefix up to `i`, and advance `offset`/`offsetInProgress`. -/
def Unstable.stableTo (u : Unstable) (i t : Nat) : Unstable :=
  if i < u.offset ∨ u.offset + u.entries.length ≤ i ∨
      (u.entries[i - u.offset]?).map Entry.term ≠ some t then u
  else
    { u with
      snapshot :=
        match u.snapshot with
        | some s => if s.index ≤ i then none else some s
        | none => none
      entries := u.entries.drop (i + 1 - u.offset)
      offset := i + 1
      offsetInProgress := max u.offsetInProgress (i + 1) }

/-- Modelled from the spec: `unstable.restore(s)` replaces the whole
buffer with the pending snapshot `s`. -/
def Unstable.restore (s : Snapshot) : Unstable :=
  { entries := []
    offset := s.index + 1
    offsetInProgress := s.index + 1
    snapshot := some s
    snapshotInProgress := false }

/-- The `raftLog` structure of `log.go` (the logger field is omitted). -/
structure RaftLog where
  storage : StorageM
  unstable : Unstable
  leaderTerm : Nat
  committed : Nat
  applying : Nat
  applied : Nat
  maxApplyingEntsSize : Nat
  applyingEntsSize : Nat
  applyingEntsPaused : Bool
deriving DecidableEq

/-- `raftLog.firstIndex`: the unstable snapshot boundary when pending,
else the Storage first index. -/
def RaftLog.firstIndex (l : RaftLog) : Nat :=
  (l.unstable.maybeFirstIndex).getD l.storage.firstIndexS

/-- `raftLog.lastIndex`: the unstable last index when available, else the
Storage last index. -/
def RaftLog.lastIndex (l : RaftLog) : Nat :=
  (l.unstable.maybeLastIndex).getD l.storage.lastIndexS

/-- `raftLog.term(i)`: the unstable term when covered; `ErrCompacted`
below `firstIndex-1`, `ErrUnavailable` above `lastIndex`, else the
Storage term (whose `Compacted`/`Unavailable` errors propagate; the
modelled Storage has no other errors, so the source's fatal branch for an
unexpected Storage error is dead here). -/
def RaftLog.term (l : RaftLog) (i : Nat) : Except Err Nat :=
  match l.unstable.maybeTerm i with
  | some t => .ok t
  | none =>
    if i + 1 < l.firstIndex then .error .compacted
    else if l.lastIndex < i then .error .unavailable
    else l.storage.termS i

/-- `raftLog.matchTerm(i, term)`. -/
def RaftLog.matchTerm (l : RaftLog) (i term : Nat) : Bool :=
  match l.term i with
  | .ok t => t == term
  | .error _ => false

/-- `zeroTermOnOutOfBounds`: map `Compacted`/`Unavailable` to term 0 (the
fatal branch for other errors is dead for the modelled Storage). -/
def zeroTermOnOutOfBounds (r : Except Err Nat) : Nat :=
  match r with
  | .ok t => t
  | .error _ => 0

/-- `raftLog.findConflict(ents)`: index of the first entry of `ents`
whose `(index, term)` does not match the log, or 0 when all match. -/
def RaftLog.findConflict (l : RaftLog) : List Entry → Nat
  | [] => 0
  | ne :: rest =>
    if l.matchTerm ne.index ne.term then l.findConflict rest else ne.index

/-- `raftLog.findConflictByTerm(index, term)`: scan downwards from
`index` for the first index whose term is unknown or at most `term`. -/
def RaftLog.findConflictByTerm (l : RaftLog) (index term : Nat) : Nat × Nat :=
  match index with
  | 0 => (0, 0)
  | i + 1 =>
    match l.term (i + 1) with
    | .error _ => (i + 1, 0)
    | .ok t => if t ≤ term then (i + 1, t) else l.findConflictByTerm i term

/-- `raftLog.commitTo(leaderTerm, tocommit)`: ignored unless `leaderTerm`
matches; else raise `committed` to `min(tocommit, lastIndex())` when that
is an advance. -/
def RaftLog.commitTo (l : RaftLog) (leaderTerm tocommit : Nat) : RaftLog :=
  if leaderTerm ≠ l.leaderTerm then l
  else if l.committed < min tocommit l.lastIndex then
    { l with committed := min tocommit l.lastIndex }
  else l

/-- `raftLog.append(leaderTerm, ents)`: no-op for a stale leader or empty
`ents`; fatal when the entries would reach at or below `committed` or
when their last term exceeds `leaderTerm`; else adopt `leaderTerm` and
`truncateAndAppend` into the unstable buffer.  Returns the updated log
and its `lastIndex()`. -/
def RaftLog.append (l : RaftLog) (leaderTerm : Nat) (ents : List Entry) :
    Option (RaftLog × Nat) :=
  if leaderTerm < l.leaderTerm then some (l, l.lastIndex)
  else
    match ents with
    | [] => some (l, l.lastIndex)
    | e0 :: rest =>
      if e0.index - 1 < l.committed then none
      else if leaderTerm < ((e0 :: rest).getLastD e0).term then none
      else
        match l.unstable.truncateAndAppend (e0 :: rest) with
        | none => none
        | some u' =>
          let l' := { l with leaderTerm := leaderTerm, unstable := u' }
          some (l', l'.lastIndex)

/-- `raftLog.maybeAppend(leaderTerm, prevIndex, prevTerm, committed,
ents)`: reject a stale leader or a failed `matchTerm`; fatal when the
first conflict lies at or below `committed`, or on a malformed conflict
position; else append the conflicting suffix, advance the commit index,
and return `(prevIndex + len(ents), true)`. -/
def RaftLog.maybeAppend (l : RaftLog) (leaderTerm prevIndex prevTerm committed : Nat)
    (ents : List Entry) : Option (RaftLog × Nat × Bool) :=
  if leaderTerm < l.leaderTerm then some (l, 0, false)
  else if ¬ l.matchTerm prevIndex prevTerm then some (l, 0, false)
  else if l.findConflict ents = 0 then
    some (l.commitTo leaderTerm (min committed (prevIndex + ents.length)),
          prevIndex + ents.length, true)
  else if l.findConflict ents ≤ l.committed then none
  else if ents.length < l.findConflict ents - (prevIndex + 1) then none
  else
    match l.append leaderTerm (ents.drop (l.findConflict ents - (prevIndex + 1))) with
    | none => none
    | some p =>
      some (p.1.commitTo leaderTerm (min committed (prevIndex + ents.length)),
            prevIndex + ents.length, true)

/-- `raftLog.maxAppliableIndex(allowUnstable)`. -/
def RaftLog.maxAppliableIndex (l : RaftLog) (allowUnstable : Bool) : Nat :=
  if allowUnstable then l.committed
  else min l.committed (l.unstable.offset - 1)

/-- `raftLog.hasNextOrInProgressSnapshot`. -/
def RaftLog.hasNextOrInProgressSnapshot (l : RaftLog) : Bool :=
  l.unstable.snapshot.isSome

/-- `raftLog.mustCheckOutOfBounds(lo, hi)`: fatal on `lo > hi` or on
`hi` above `lastIndex()+1`; `Compacted` when `lo < firstIndex()`. -/
def RaftLog.mustCheckOutOfBounds (l : RaftLog) (lo hi : Nat) : Option (Option Err) :=
  if hi < lo then none
  else
    let fi := l.firstIndex
    if lo < fi then some (some .compacted)
    else if fi + (l.lastIndex + 1 - fi) < hi then none
    else some none

/-- `raftLog.slice(lo, hi, maxSize)`: bounds-checked read of `[lo, hi)`
across the stable and unstable halves, byte-bounded by `maxSize`;
`Unavailable` from Storage is fatal. -/
def RaftLog.slice (l : RaftLog) (lo hi maxSize : Nat) : Option (Except Err (List Entry)) :=
  match l.mustCheckOutOfBounds lo hi with
  | none => none
  | some (some e) => some (.error e)
  | some none =>
    if lo = hi then some (.ok [])
    else if l.unstable.offset ≤ lo then
      match l.unstable.slice lo hi with
      | none => none
      | some ents => some (.ok (limitSize ents maxSize))
    else
      let cut := min hi l.unstable.offset
      match l.storage.entriesS lo cut maxSize with
      | .error .compacted => some (.error .compacted)
      | .error .unavailable => none
      | .ok ents =>
        if hi ≤ l.unstable.offset then some (.ok ents)
        else if ents.length < cut - lo then some (.ok ents)
        else
          let size := entsSize ents
          if maxSize ≤ size then some (.ok ents)
          else
            match l.unstable.slice l.unstable.offset hi with
            | none => none
            | some uents =>
              let unst := limitSize uents (maxSize - size)
              if unst.length = 1 ∧ maxSize < size + entsSize unst then some (.ok ents)
              else some (.ok (ents ++ unst))

/-- `raftLog.entries(i, maxSize)`: empty success above `lastIndex()`,
else `slice(i, lastIndex()+1, maxSize)`. -/
def RaftLog.entries (l : RaftLog) (i maxSize : Nat) : Option (Except Err (List Entry)) :=
  if l.lastIndex < i then some (.ok [])
  else l.slice i (l.lastIndex + 1) maxSize

/-- `raftLog.nextCommittedEnts(allowUnstable)`: empty when paused, when a
snapshot is pending or in progress, or when the range
`(applying, maxAppliableIndex]` is empty; fatal when the remaining byte
budget is exhausted with a non-empty range, or when the slice fails. -/
def RaftLog.nextCommittedEnts (l : RaftLog) (allowUnstable : Bool) : Option (List Entry) :=
  if l.applyingEntsPaused then some []
  else if l.hasNextOrInProgressSnapshot then some []
  else if l.maxAppliableIndex allowUnstable + 1 ≤ l.applying + 1 then some []
  else if l.maxApplyingEntsSize - l.applyingEntsSize = 0 then none
  else
    match l.slice (l.applying + 1) (l.maxAppliableIndex allowUnstable + 1)
        (l.maxApplyingEntsSize - l.applyingEntsSize) with
    | some (.ok ents) => some ents
    | _ => none

/-- `raftLog.appliedTo(i, size)`: fatal outside
`[applied, committed]`; advance `applied` (and `applying`), release
`size` bytes of budget (saturating), and refresh the pause latch. -/
def RaftLog.appliedTo (l : RaftLog) (i size : Nat) : Option RaftLog :=
  if l.committed < i ∨ i < l.applied then none
  else
    some { l with
      applied := i
      applying := max l.applying i
      applyingEntsSize := if size < l.applyingEntsSize then l.applyingEntsSize - size else 0
      applyingEntsPaused := l.maxApplyingEntsSize ≤
        if size < l.applyingEntsSize then l.applyingEntsSize - size else 0 }

/-- `raftLog.acceptApplying(i, size, allowUnstable)`: fatal above
`committed`; record the new `applying` cursor and outstanding bytes, and
pause when the budget is reached or the delivery was truncated. -/
def RaftLog.acceptApplying (l : RaftLog) (i size : Nat) (allowUnstable : Bool) :
    Option RaftLog :=
  if l.committed < i then none
  else
    some { l with
      applying := i
      applyingEntsSize := l.applyingEntsSize + size
      applyingEntsPaused := l.maxApplyingEntsSize ≤ l.applyingEntsSize + size ∨
        i < l.maxAppliableIndex allowUnstable }

/-- `raftLog.stableTo(i, t)`. -/
def RaftLog.stableTo (l : RaftLog) (i t : Nat) : RaftLog :=
  { l with unstable := l.unstable.stableTo i t }

/-- `raftLog.maybeCommit(leaderTerm, maxIndex, term)`: when `maxIndex` is
past `committed`, `term` is non-zero and the log's term at `maxIndex`
(out-of-bounds read as 0) equals `term`, call `commitTo` and report true. -/
def RaftLog.maybeCommit (l : RaftLog) (leaderTerm maxIndex term : Nat) : RaftLog × Bool :=
  if l.committed < maxIndex ∧ term ≠ 0 ∧ zeroTermOnOutOfBounds (l.term maxIndex) = term then
    (l.commitTo leaderTerm maxIndex, true)
  else (l, false)

/-- `raftLog.restore(s)`: adopt the snapshot index as `committed` and
replace the unstable buffer with the pending snapshot. -/
def RaftLog.restore (l : RaftLog) (s : Snapshot) : RaftLog :=
  { l with committed := s.index, unstable := Unstable.restore s }

/-- `newLogWithSize(storage, maxApplyingEntsSize)`: recover the log from
`storage` with all cursors at `FirstIndex()-1` and `leaderTerm` taken
from the last stable entry (the error branch is unreachable: the modelled
`Storage.Term` is defined at `LastIndex()`; the source panics there). -/
def newLogWithSize (s : StorageM) (maxApplyingEntsSize : Nat) : RaftLog :=
  { storage := s
    unstable :=
      { entries := []
        offset := s.lastIndexS + 1
        offsetInProgress := s.lastIndexS + 1
        snapshot := none
        snapshotInProgress := false }
    leaderTerm :=
      match s.termS s.lastIndexS with
      | .ok t => t
      | .error _ => 0
    committed := s.firstIndexS - 1
    applying := s.firstIndexS - 1
    applied := s.firstIndexS - 1
    maxApplyingEntsSize := maxApplyingEntsSize
    applyingEntsSize := 0
    applyingEntsPaused := false }

/-- The cursor-chain invariant of the log (spec section 3):
`applied ≤ applying ≤ committed ≤ lastIndex()`. -/
def RaftInv (l : RaftLog) : Prop :=
  l.applied ≤ l.applying ∧ l.applying ≤ l.committed ∧ l.committed ≤ l.lastIndex

/-- Decidability of the cursor-chain invariant, for concrete states. -/
instance (l : RaftLog) : Decidable (RaftInv l) :=
  inferInstanceAs (Decidable (_ ∧ _ ∧ _))

/-- The predicate scanned by `findConflictByTerm`: the term at `j` is
unknown (compacted or unavailable) or at most `term`. -/
def unknownOrLE (l : RaftLog) (term j : Nat) : Bool :=
  match l.term j with
  | .error _ => true
  | .ok t => decide (t ≤ term)

/-! ### Concrete states used by witnesses and counterexamples -/

/-- Stable entries `(1,1) (2,1) (3,1)` over an empty snapshot. -/
def storage3 : StorageM :=
  { snapIndex := 0, snapTerm := 0, ents := [⟨1, 1, 0⟩, ⟨2, 1, 0⟩, ⟨3, 1, 0⟩] }

/-- An empty unstable buffer right after stable index 3. -/
def uEmpty4 : Unstable :=
  { entries := [], offset := 4, offsetInProgress := 4, snapshot := none,
    snapshotInProgress := false }

/-- Scenario S2: log `[(1,1),(2,1),(3,1)]` with `committed = 3`. -/
def lS2 : RaftLog :=
  { storage := storage3, unstable := uEmpty4, leaderTerm := 1, committed := 3,
    applying := 1, applied := 1, maxApplyingEntsSize := 100, applyingEntsSize := 0,
    applyingEntsPaused := false }

/-- Scenario S1: the same log with `committed = 1`. -/
def lS1 : RaftLog := { lS2 with committed := 1 }

/-- The conflicting append `[(2,2),(3,2),(4,2)]` of scenarios S1/S2. -/
def entsS1 : List Entry := [⟨2, 2, 0⟩, ⟨3, 2, 0⟩, ⟨4, 2, 0⟩]

/-- The state after `lS1.maybeAppend 2 1 1 2 entsS1`. -/
def lS1post : RaftLog :=
  { storage := storage3
    unstable := { entries := entsS1, offset := 2, offsetInProgress := 2,
                  snapshot := none, snapshotInProgress := false }
    leaderTerm := 2, committed := 2, applying := 1, applied := 1,
    maxApplyingEntsSize := 100, applyingEntsSize := 0, applyingEntsPaused := false }

/-- A log with committed entries `2..3` yet to be applied, bytes 1 each. -/
def lNC : RaftLog :=
  { storage := { snapIndex := 0, snapTerm := 0, ents := [⟨1, 1, 1⟩, ⟨2, 1, 1⟩, ⟨3, 1, 1⟩] }
    unstable := uEmpty4, leaderTerm := 1, committed := 3, applying := 1, applied := 1,
    maxApplyingEntsSize := 10, applyingEntsSize := 0, applyingEntsPaused := false }

/-- The state `lNC.acceptApplying 0 0 true` produces: `applying` regresses
below `applied`. -/
def lC3x : RaftLog :=
  { lNC with applying := 0, applyingEntsSize := 0, applyingEntsPaused := true }

/-- Scenario S6: log terms `[1:1, 2:3, 3:3, 4:5]`. -/
def logS6 : RaftLog :=
  { storage := { snapIndex := 0, snapTerm := 0,
                 ents := [⟨1, 1, 0⟩, ⟨2, 3, 0⟩, ⟨3, 3, 0⟩, ⟨4, 5, 0⟩] }
    unstable := { entries := [], offset := 5, offsetInProgress := 5, snapshot := none,
                  snapshotInProgress := false }
    leaderTerm := 5, committed := 1, applying := 1, applied := 1,
    maxApplyingEntsSize := 100, applyingEntsSize := 0, applyingEntsPaused := false }

/-- A log mixing a compacted region, stable entries and an unstable entry:
snapshot at `(2,1)`, stable `(3,2) (4,2)`, unstable `(5,3)`. -/
def lW7 : RaftLog :=
  { storage := { snapIndex := 2, snapTerm := 1, ents := [⟨3, 2, 0⟩, ⟨4, 2, 0⟩] }
    unstable := { entries := [⟨5, 3, 0⟩], offset := 5, offsetInProgress := 5,
                  snapshot := none, snapshotInProgress := false }
    leaderTerm := 3, committed := 3, applying := 3, applied := 3,
    maxApplyingEntsSize := 100, applyingEntsSize := 0, applyingEntsPaused := false }

/-- `lNC` with only index 1 committed, for the `maybeCommit` claim. -/
def lW10 : RaftLog := { lNC with committed := 1 }

/-! ### Helper lemmas -/

theorem lastIndex_of_entries_ne {l : RaftLog} (h : l.unstable.entries ≠ []) :
    l.lastIndex = l.unstable.offset + l.unstable.entries.length - 1 := by
  have hlen : l.unstable.entries.length ≠ 0 := by
    simpa [List.length_eq_zero] using h
  simp [RaftLog.lastIndex, Unstable.maybeLastIndex, hlen]

theorem truncateAndAppend_shape {u u' : Unstable} {e0 : Entry} {rest : List Entry}
    (h : u.truncateAndAppend (e0 :: rest) = some u') :
    u'.snapshot = u.snapshot ∧
    u'.offset + u'.entries.length = e0.index + (e0 :: rest).length ∧
    u'.entries ≠ [] ∧
    (∀ i, i < e0.index → u'.maybeTerm i = u.maybeTerm i) := by
  unfold Unstable.truncateAndAppend at h
  simp only [List.head?_cons] at h
  split at h
  case isTrue h1 =>
    obtain rfl := Option.some.inj h
    refine ⟨rfl, ?_, by simp, ?_⟩
    · simp only [List.length_append]; omega
    · intro i hi
      have hi' : i < u.offset + u.entries.length := h1 ▸ hi
      unfold Unstable.maybeTerm
      by_cases hoi : u.offset ≤ i
      · have hlt : i - u.offset < u.entries.length := by omega
        simp only [List.length_append]
        rw [if_pos ⟨hoi, by omega⟩, if_pos ⟨hoi, hi'⟩]
        simp [List.getElem?_append, hlt]
      · rw [if_neg (by simp only [not_and, not_le]; intro hc; omega),
            if_neg (by simp only [not_and, not_le]; intro hc; omega)]
  case isFalse h1 =>
    split at h
    case isTrue h2 =>
      obtain rfl := Option.some.inj h
      refine ⟨rfl, by simp, by simp, ?_⟩
      intro i hi
      unfold Unstable.maybeTerm
      rw [if_neg (by simp only [not_and, not_le]; intro hc; omega),
          if_neg (by simp only [not_and, not_le]; intro hc; omega)]
    case isFalse h2 =>
      split at h
      · exact absurd h (by simp)
      case h_2 kept heq =>
        unfold Unstable.slice at heq
        split at heq
        · exact absurd heq (by simp)
        case isFalse h3 =>
          push_neg at h3
          obtain rfl := Option.some.inj heq
          obtain rfl := Option.some.inj h
          have hkl : ((u.entries.drop (u.offset - u.offset)).take (e0.index - u.offset)).length
              = e0.index - u.offset := by
            simp only [List.length_take, List.length_drop, Nat.sub_self]
            omega
          refine ⟨rfl, ?_, by simp, ?_⟩
          · simp only [List.length_append, hkl, List.length_cons]; omega
          · intro i hi
            unfold Unstable.maybeTerm
            by_cases hoi : u.offset ≤ i
            · have hlt : i - u.offset < e0.index - u.offset := by omega
              simp only [List.length_append, hkl]
              rw [if_pos ⟨hoi, by simp only [List.length_cons]; omega⟩,
                  if_pos ⟨hoi, by omega⟩]
              rw [List.getElem?_append, hkl, if_pos hlt]
              rw [Nat.sub_self, List.drop_zero, List.getElem?_take, if_pos hlt]
            · rw [if_neg (by simp only [not_and, not_le]; intro hc; omega),
                  if_neg (by simp only [not_and, not_le]; intro hc; omega)]

theorem append_cases {l : RaftLog} {lt : Nat} {es : List Entry} {l' : RaftLog} {r : Nat}
    (h : l.append lt es = some (l', r)) :
    l' = l ∨
    ∃ e0 rest u', es = e0 :: rest ∧ l.committed ≤ e0.index - 1 ∧
      Unstable.truncateAndAppend l.unstable (e0 :: rest) = some u' ∧
      l' = { l with leaderTerm := lt, unstable := u' } := by
  unfold RaftLog.append at h
  split at h
  · simp only [Option.some.injEq, Prod.mk.injEq] at h
    exact Or.inl h.1.symm
  · split at h
    · simp only [Option.some.injEq, Prod.mk.injEq] at h
      exact Or.inl h.1.symm
    case h_2 e0 rest =>
      split at h
      · exact absurd h (by simp)
      case isFalse hg =>
        split at h
        · exact absurd h (by simp)
        · split at h
          · exact absurd h (by simp)
          case h_2 u' heq =>
            simp only [Option.some.injEq, Prod.mk.injEq] at h
            exact Or.inr ⟨e0, rest, u', rfl, by omega, heq, h.1.symm⟩

theorem term_append_preserved {l : RaftLog} {lt : Nat} {es : List Entry} {l' : RaftLog}
    {r : Nat} (h : l.append lt es = some (l', r)) {i t : Nat} (hi : 0 < i)
    (hc : i ≤ l.committed) (ht : l.term i = .ok t) : l'.term i = .ok t := by
  rcases append_cases h with rfl | ⟨e0, rest, u', rfl, hcm, htaa, rfl⟩
  · exact ht
  obtain ⟨hsnap, hlen, hne, hterm⟩ := truncateAndAppend_shape htaa
  have hfrom : i < e0.index := by omega
  have hfi : ({ l with leaderTerm := lt, unstable := u' } : RaftLog).firstIndex
      = l.firstIndex := by
    unfold RaftLog.firstIndex Unstable.maybeFirstIndex
    show (u'.snapshot.map _).getD _ = (l.unstable.snapshot.map _).getD _
    rw [hsnap]
  have hli : i ≤ ({ l with leaderTerm := lt, unstable := u' } : RaftLog).lastIndex := by
    rw [lastIndex_of_entries_ne (l := { l with leaderTerm := lt, unstable := u' }) hne]
    show i ≤ u'.offset + u'.entries.length - 1
    simp only [List.length_cons] at hlen
    omega
  have hmt' : ∀ o, l.unstable.maybeTerm i = o →
      ({ l with leaderTerm := lt, unstable := u' } : RaftLog).unstable.maybeTerm i = o := by
    intro o ho
    show u'.maybeTerm i = o
    rw [hterm i hfrom, ho]
  unfold RaftLog.term at ht ⊢
  split at ht
  case h_1 t0 hmt =>
    rw [hmt' _ hmt]
    exact ht
  case h_2 hmt =>
    rw [hmt' _ hmt, hfi]
    split at ht
    · exact absurd ht (by simp)
    case isFalse hcp =>
      rw [if_neg hcp]
      split at ht
      · exact absurd ht (by simp)
      case isFalse hun =>
        rw [if_neg (show ¬ ({ l with leaderTerm := lt, unstable := u' } : RaftLog).lastIndex < i
          by omega)]
        exact ht

theorem lastIndex_update_committed (l : RaftLog) (x : Nat) :
    ({ l with committed := x } : RaftLog).lastIndex = l.lastIndex := rfl

theorem inv_commitTo {l : RaftLog} (hv : RaftInv l) (lt tc : Nat) :
    RaftInv (l.commitTo lt tc) := by
  obtain ⟨h1, h2, h3⟩ := hv
  unfold RaftLog.commitTo
  split
  · exact ⟨h1, h2, h3⟩
  · have hm1 := Nat.min_le_left tc l.lastIndex
    have hm2 := Nat.min_le_right tc l.lastIndex
    split
    case isTrue hlt =>
      exact ⟨h1, by show l.applying ≤ min tc l.lastIndex; omega,
        by rw [lastIndex_update_committed]; exact hm2⟩
    · exact ⟨h1, h2, h3⟩

theorem committed_commitTo_ge (l : RaftLog) (lt tc : Nat) :
    l.committed ≤ (l.commitTo lt tc).committed := by
  unfold RaftLog.commitTo
  split
  · exact le_refl _
  · split
    case isTrue hlt => exact le_of_lt hlt
    · exact le_refl _

theorem inv_append {l : RaftLog} (hv : RaftInv l) {lt : Nat} {es : List Entry}
    {l' : RaftLog} {r : Nat} (h : l.append lt es = some (l', r)) : RaftInv l' := by
  rcases append_cases h with rfl | ⟨e0, rest, u', rfl, hcm, htaa, rfl⟩
  · exact hv
  obtain ⟨h1, h2, h3⟩ := hv
  obtain ⟨hsnap, hlen, hne, hterm⟩ := truncateAndAppend_shape htaa
  refine ⟨h1, h2, ?_⟩
  rw [lastIndex_of_entries_ne (l := { l with leaderTerm := lt, unstable := u' }) hne]
  show l.committed ≤ u'.offset + u'.entries.length - 1
  simp only [List.length_cons] at hlen
  omega

theorem inv_maybeAppend {l : RaftLog} (hv : RaftInv l) {lt pi pt c : Nat}
    {es : List Entry} {l' : RaftLog} {r : Nat} {b : Bool}
    (h : l.maybeAppend lt pi pt c es = some (l', r, b)) : RaftInv l' := by
  unfold RaftLog.maybeAppend at h
  split at h
  · simp only [Option.some.injEq, Prod.mk.injEq] at h
    exact h.1 ▸ hv
  · split at h
    · simp only [Option.some.injEq, Prod.mk.injEq] at h
      exact h.1 ▸ hv
    · split at h
      · simp only [Option.some.injEq, Prod.mk.injEq] at h
        exact h.1 ▸ inv_commitTo hv _ _
      · split at h
        · exact absurd h (by simp)
        · split at h
          · exact absurd h (by simp)
          · split at h
            · exact absurd h (by simp)
            case h_2 p hap =>
              obtain ⟨l1, r1⟩ := p
              simp only [Option.some.injEq, Prod.mk.injEq] at h
              obtain ⟨rfl, -, -⟩ := h
              exact inv_commitTo (inv_append hv hap) _ _

theorem inv_appliedTo {l : RaftLog} (hv : RaftInv l) {i size : Nat} {l' : RaftLog}
    (h : l.appliedTo i size = some l') : RaftInv l' := by
  obtain ⟨h1, h2, h3⟩ := hv
  unfold RaftLog.appliedTo at h
  split at h
  · exact absurd h (by simp)
  case isFalse hg =>
    push_neg at hg
    obtain rfl := Option.some.inj h
    exact ⟨Nat.le_max_right _ _, Nat.max_le.mpr ⟨h2, hg.1⟩, h3⟩

theorem inv_acceptApplying {l : RaftLog} (hv : RaftInv l) {i size : Nat}
    {allowUnstable : Bool} {l' : RaftLog} (hai : l.applied ≤ i)
    (h : l.acceptApplying i size allowUnstable = some l') : RaftInv l' := by
  obtain ⟨h1, h2, h3⟩ := hv
  unfold RaftLog.acceptApplying at h
  split at h
  · exact absurd h (by simp)
  case isFalse hg =>
    push_neg at hg
    obtain rfl := Option.some.inj h
    exact ⟨hai, hg, h3⟩

theorem lastIndex_restore (l : RaftLog) (s : Snapshot) :
    (l.restore s).lastIndex = s.index := by
  simp [RaftLog.restore, RaftLog.lastIndex, Unstable.maybeLastIndex, Unstable.restore]

theorem inv_restore {l : RaftLog} (hv : RaftInv l) {s : Snapshot}
    (hap : l.applying ≤ s.index) : RaftInv (l.restore s) := by
  refine ⟨hv.1, hap, ?_⟩
  rw [lastIndex_restore]
  exact Nat.le_refl _

theorem inv_maybeCommit {l : RaftLog} (hv : RaftInv l) (lt mi t : Nat) :
    RaftInv (l.maybeCommit lt mi t).1 := by
  unfold RaftLog.maybeCommit
  split
  · exact inv_commitTo hv _ _
  · exact hv

theorem inv_newLog (s : StorageM) (m : Nat) : RaftInv (newLogWithSize s m) := by
  refine ⟨le_refl _, le_refl _, ?_⟩
  show s.firstIndexS - 1 ≤ (newLogWithSize s m).lastIndex
  have : (newLogWithSize s m).lastIndex = s.lastIndexS := by
    simp [newLogWithSize, RaftLog.lastIndex, Unstable.maybeLastIndex]
  rw [this]
  unfold StorageM.firstIndexS StorageM.lastIndexS
  omega

theorem inv_stableTo {l : RaftLog} (hv : RaftInv l) {i t : Nat}
    (hdur : i ≤ l.storage.lastIndexS) : RaftInv (l.stableTo i t) := by
  obtain ⟨h1, h2, h3⟩ := hv
  unfold RaftLog.stableTo Unstable.stableTo
  split
  · exact ⟨h1, h2, h3⟩
  case isFalse hg =>
    push_neg at hg
    obtain ⟨hgo, hgl, -⟩ := hg
    have hlen : l.unstable.entries.length ≠ 0 := by omega
    have hold : l.lastIndex = l.unstable.offset + l.unstable.entries.length - 1 :=
      lastIndex_of_entries_ne (by simpa [List.length_eq_zero] using hlen)
    refine ⟨h1, h2, ?_⟩
    show l.committed ≤ RaftLog.lastIndex _
    unfold RaftLog.lastIndex Unstable.maybeLastIndex
    by_cases hrem : (l.unstable.entries.drop (i + 1 - l.unstable.offset)).length ≠ 0
    · simp only [List.length_drop] at hrem ⊢
      rw [if_pos (by simpa using hrem)]
      simp only [Option.getD_some]
      omega
    · simp only [List.length_drop] at hrem
      push_neg at hrem
      rw [if_neg (by simp only [List.length_drop]; omega)]
      cases hsnap : l.unstable.snapshot with
      | none =>
        show l.committed ≤ l.storage.lastIndexS
        omega
      | some s =>
        dsimp only
        by_cases hsi : s.index ≤ i
        · rw [if_pos hsi]
          show l.committed ≤ l.storage.lastIndexS
          omega
        · rw [if_neg hsi]
          show l.committed ≤ s.index
          omega

theorem term_commitTo (l : RaftLog) (lt tc i : Nat) :
    (l.commitTo lt tc).term i = l.term i := by
  unfold RaftLog.commitTo
  split
  · rfl
  · split
    · rfl
    · rfl

theorem one_le_firstIndex (l : RaftLog) : 1 ≤ l.firstIndex := by
  unfold RaftLog.firstIndex Unstable.maybeFirstIndex StorageM.firstIndexS
  cases l.unstable.snapshot with
  | none => simp
  | some s => simp

theorem fcbt_spec (l : RaftLog) (term : Nat) : ∀ index : Nat,
    (l.findConflictByTerm index term).1 ≤ index ∧
    (∀ k, (l.findConflictByTerm index term).1 < k → k ≤ index →
      unknownOrLE l term k = false) ∧
    (0 < (l.findConflictByTerm index term).1 →
      unknownOrLE l term (l.findConflictByTerm index term).1 = true ∧
      (l.findConflictByTerm index term).2 =
        zeroTermOnOutOfBounds (l.term (l.findConflictByTerm index term).1)) ∧
    ((l.findConflictByTerm index term).1 = 0 → (l.findConflictByTerm index term).2 = 0) := by
  intro index
  induction index with
  | zero =>
    rw [show l.findConflictByTerm 0 term = (0, 0) from rfl]
    dsimp only
    exact ⟨Nat.le_refl _, fun k h1 h2 => by omega, fun h => by omega, fun _ => rfl⟩
  | succ i ih =>
    have hstep : l.findConflictByTerm (i + 1) term =
        (match l.term (i + 1) with
         | .error _ => (i + 1, 0)
         | .ok t => if t ≤ term then (i + 1, t) else l.findConflictByTerm i term) := rfl
    cases hterm : l.term (i + 1) with
    | error e =>
      have hres : l.findConflictByTerm (i + 1) term = (i + 1, 0) := by
        rw [hstep, hterm]
      rw [hres]
      dsimp only
      refine ⟨Nat.le_refl _, fun k h1 h2 => by omega, fun _ => ⟨?_, ?_⟩, fun h => by omega⟩
      · unfold unknownOrLE
        rw [hterm]
      · rw [hterm]
        rfl
    | ok t =>
      by_cases hle : t ≤ term
      · have hres : l.findConflictByTerm (i + 1) term = (i + 1, t) := by
          rw [hstep, hterm]
          show (if t ≤ term then (i + 1, t) else l.findConflictByTerm i term) = (i + 1, t)
          rw [if_pos hle]
        rw [hres]
        dsimp only
        refine ⟨Nat.le_refl _, fun k h1 h2 => by omega, fun _ => ⟨?_, ?_⟩, fun h => by omega⟩
        · unfold unknownOrLE
          rw [hterm]
          simp [hle]
        · rw [hterm]
          rfl
      · have hres : l.findConflictByTerm (i + 1) term = l.findConflictByTerm i term := by
          rw [hstep, hterm]
          show (if t ≤ term then (i + 1, t) else l.findConflictByTerm i term) = _
          rw [if_neg hle]
        rw [hres]
        obtain ⟨ih1, ih2, ih3, ih4⟩ := ih
        refine ⟨by omega, ?_, ih3, ih4⟩
        intro k h1 h2
        by_cases hk : k ≤ i
        · exact ih2 k h1 hk
        · have hki : k = i + 1 := by omega
          subst hki
          unfold unknownOrLE
          rw [hterm]
          simp [hle]

/-! ### Claims -/

/-- C1: during `maybeAppend`, a first conflicting index `ci` with
`0 < ci ≤ committed` is fatal (the call aborts instead of returning), and
an accepted append never replaces a committed entry: every entry with
index `0 < i ≤ committed` present before keeps its term. -/
theorem c1_no_committed_overwrite :
    (∀ (l : RaftLog) (lt pi pt c : Nat) (es : List Entry),
      ¬ lt < l.leaderTerm → l.matchTerm pi pt = true →
      0 < l.findConflict es → l.findConflict es ≤ l.committed →
      l.maybeAppend lt pi pt c es = none) ∧
    (∀ (l : RaftLog) (lt pi pt c : Nat) (es : List Entry) (l' : RaftLog) (r : Nat),
      l.maybeAppend lt pi pt c es = some (l', r, true) →
      ∀ i t, 0 < i → i ≤ l.committed → l.term i = .ok t → l'.term i = .ok t) := by
  constructor
  · intro l lt pi pt c es h1 hm hc1 hc2
    unfold RaftLog.maybeAppend
    rw [if_neg h1, if_neg (by simp [hm]), if_neg (by omega), if_pos hc2]
  · intro l lt pi pt c es l' r h i t hi hc ht
    unfold RaftLog.maybeAppend at h
    split at h
    · simp only [Option.some.injEq, Prod.mk.injEq] at h
      exact absurd h.2.2 (by simp)
    · split at h
      · simp only [Option.some.injEq, Prod.mk.injEq] at h
        exact absurd h.2.2 (by simp)
      · split at h
        · simp only [Option.some.injEq, Prod.mk.injEq] at h
          obtain ⟨rfl, -, -⟩ := h
          rw [term_commitTo]
          exact ht
        · split at h
          · exact absurd h (by simp)
          · split at h
            · exact absurd h (by simp)
            · split at h
              · exact absurd h (by simp)
              case h_2 p hap =>
                obtain ⟨l1, r1⟩ := p
                simp only [Option.some.injEq, Prod.mk.injEq] at h
                obtain ⟨rfl, -, -⟩ := h
                rw [term_commitTo]
                exact term_append_preserved hap hi hc ht

/-- C1 witness: the committed-overwrite abort on scenario S2, and a
concrete accepted append (scenario S1) that keeps the committed entry at
index 1. -/
theorem c1_witness :
    lS2.maybeAppend 2 1 1 3 entsS1 = none ∧
    lS1.maybeAppend 2 1 1 2 entsS1 = some (lS1post, 4, true) ∧
    lS1post.term 1 = .ok 1 :=
  ⟨c1_no_committed_overwrite.1 lS2 2 1 1 3 entsS1 (by decide) (by decide) (by decide)
      (by decide),
   rfl,
   c1_no_committed_overwrite.2 lS1 2 1 1 2 entsS1 lS1post 4 rfl 1 1 (by decide) (by decide)
      rfl⟩

/-- C2 counterexample: on scenario S2 both reject guards pass, yet
`maybeAppend` aborts fatally instead of returning
`(prevIndex + len(ents), true)` as the claim states. -/
theorem c2_counterexample :
    ¬ (2 : Nat) < lS2.leaderTerm ∧ lS2.matchTerm 1 1 = true ∧
    lS2.maybeAppend 2 1 1 2 entsS1 = none :=
  ⟨by decide, by decide, rfl⟩

/-- C2 (amended): a stale leader or a failed `matchTerm` yields
`(0, false)` with the state unchanged; otherwise, whenever `maybeAppend`
returns (it can instead abort fatally, e.g. on a committed-entry
conflict), it returns `(prevIndex + len(ents), true)`. -/
theorem c2_maybeAppend_result :
    ∀ (l : RaftLog) (lt pi pt c : Nat) (es : List Entry),
      (lt < l.leaderTerm → l.maybeAppend lt pi pt c es = some (l, 0, false)) ∧
      (¬ lt < l.leaderTerm → l.matchTerm pi pt = false →
        l.maybeAppend lt pi pt c es = some (l, 0, false)) ∧
      (¬ lt < l.leaderTerm → l.matchTerm pi pt = true →
        ∀ l' r b, l.maybeAppend lt pi pt c es = some (l', r, b) →
          r = pi + es.length ∧ b = true) := by
  intro l lt pi pt c es
  refine ⟨?_, ?_, ?_⟩
  · intro h
    unfold RaftLog.maybeAppend
    rw [if_pos h]
  · intro h hm
    unfold RaftLog.maybeAppend
    rw [if_neg h, if_pos (by simp [hm])]
  · intro h hm l' r b hres
    unfold RaftLog.maybeAppend at hres
    rw [if_neg h, if_neg (by simp [hm])] at hres
    split at hres
    · simp only [Option.some.injEq, Prod.mk.injEq] at hres
      exact ⟨hres.2.1.symm, hres.2.2.symm⟩
    · split at hres
      · exact absurd hres (by simp)
      · split at hres
        · exact absurd hres (by simp)
        · split at hres
          · exact absurd hres (by simp)
          · simp only [Option.some.injEq, Prod.mk.injEq] at hres
            exact ⟨hres.2.1.symm, hres.2.2.symm⟩

/-- C2 witness: the stale-leader reject of scenario S3 leaves the state
unchanged, and the accepted append of scenario S1 returns `(4, true)`. -/
theorem c2_witness :
    ({ lS2 with leaderTerm := 3 } : RaftLog).maybeAppend 2 1 1 2 entsS1 =
      some ({ lS2 with leaderTerm := 3 }, 0, false) ∧
    (4 : Nat) = 1 + entsS1.length ∧ (true : Bool) = true :=
  ⟨(c2_maybeAppend_result { lS2 with leaderTerm := 3 } 2 1 1 2 entsS1).1 (by decide),
   ((c2_maybeAppend_result lS1 2 1 1 2 entsS1).2.2 (by decide) (by decide) lS1post 4 true
      rfl).1,
   ((c2_maybeAppend_result lS1 2 1 1 2 entsS1).2.2 (by decide) (by decide) lS1post 4 true
      rfl).2⟩

/-- C3 counterexample: the claim fails as stated — from an
invariant-satisfying state, `acceptApplying 0` (its only stated
precondition `i ≤ committed` holds) regresses `applying` below `applied`
and breaks the chain. -/
theorem c3_counterexample :
    RaftInv lNC ∧ lNC.acceptApplying 0 0 true = some lC3x ∧ ¬ RaftInv lC3x :=
  ⟨by decide, by decide, by decide⟩

/-- C3 (amended): `applied ≤ applying ≤ committed ≤ lastIndex()` holds in
the constructed state and is preserved by `maybeAppend`, `append`,
`commitTo`, `maybeCommit` and `appliedTo` under their stated
preconditions; by `acceptApplying i` given additionally `applied ≤ i`; by
`stableTo i` given the entries through `i` are durable
(`i ≤ Storage.LastIndex`); and by `restore s` given
`applying ≤ s.lastIncludedIndex`. -/
theorem c3_cursor_chain :
    (∀ (s : StorageM) (m : Nat), RaftInv (newLogWithSize s m)) ∧
    (∀ (l : RaftLog) (lt pi pt c : Nat) (es : List Entry) (l' : RaftLog) (r : Nat)
      (b : Bool), RaftInv l → l.maybeAppend lt pi pt c es = some (l', r, b) →
      RaftInv l') ∧
    (∀ (l : RaftLog) (lt : Nat) (es : List Entry) (l' : RaftLog) (r : Nat),
      RaftInv l → l.append lt es = some (l', r) → RaftInv l') ∧
    (∀ (l : RaftLog) (lt tc : Nat), RaftInv l → RaftInv (l.commitTo lt tc)) ∧
    (∀ (l : RaftLog) (lt mi t : Nat), RaftInv l → RaftInv (l.maybeCommit lt mi t).1) ∧
    (∀ (l : RaftLog) (i sz : Nat) (l' : RaftLog), RaftInv l →
      l.appliedTo i sz = some l' → RaftInv l') ∧
    (∀ (l : RaftLog) (i sz : Nat) (au : Bool) (l' : RaftLog), RaftInv l →
      l.applied ≤ i → l.acceptApplying i sz au = some l' → RaftInv l') ∧
    (∀ (l : RaftLog) (i t : Nat), RaftInv l → i ≤ l.storage.lastIndexS →
      RaftInv (l.stableTo i t)) ∧
    (∀ (l : RaftLog) (s : Snapshot), RaftInv l → l.applying ≤ s.index →
      RaftInv (l.restore s)) :=
  ⟨inv_newLog,
   fun _ _ _ _ _ _ _ _ _ hv h => inv_maybeAppend hv h,
   fun _ _ _ _ _ hv h => inv_append hv h,
   fun _ lt tc hv => inv_commitTo hv lt tc,
   fun _ lt mi t hv => inv_maybeCommit hv lt mi t,
   fun _ _ _ _ hv h => inv_appliedTo hv h,
   fun _ _ _ _ _ hv hai h => inv_acceptApplying hv hai h,
   fun _ _ _ hv hdur => inv_stableTo hv hdur,
   fun _ _ hv hap => inv_restore hv hap⟩

/-- C3 witness: the invariant after a concrete constructor call, a
concrete accepted append, a concrete `stableTo` and a concrete
`restore`, with every hypothesis discharged by evaluation. -/
theorem c3_witness :
    RaftInv (newLogWithSize storage3 100) ∧
    RaftInv lS1post ∧
    RaftInv (lS2.stableTo 3 1) ∧
    RaftInv (lNC.restore ⟨10, 7⟩) :=
  ⟨c3_cursor_chain.1 storage3 100,
   c3_cursor_chain.2.1 lS1 2 1 1 2 entsS1 lS1post 4 true (by decide) rfl,
   c3_cursor_chain.2.2.2.2.2.2.2.1 lS2 3 1 (by decide) (by decide),
   c3_cursor_chain.2.2.2.2.2.2.2.2 lNC ⟨10, 7⟩ (by decide) (by decide)⟩

/-- C4: `commitTo(leaderTerm, tocommit)` is a no-op on a term mismatch,
otherwise sets `committed` to `max(committed, min(tocommit, lastIndex()))`
changing nothing else, and `committed` never decreases. -/
theorem c4_commitTo :
    ∀ (l : RaftLog) (lt tc : Nat),
      (lt ≠ l.leaderTerm → l.commitTo lt tc = l) ∧
      (lt = l.leaderTerm →
        l.commitTo lt tc = { l with committed := max l.committed (min tc l.lastIndex) }) ∧
      l.committed ≤ (l.commitTo lt tc).committed := by
  intro l lt tc
  refine ⟨?_, ?_, committed_commitTo_ge l lt tc⟩
  · intro h
    unfold RaftLog.commitTo
    rw [if_pos h]
  · intro h
    unfold RaftLog.commitTo
    rw [if_neg (by simp [h])]
    split
    case isTrue hlt =>
      rw [Nat.max_eq_right (Nat.le_of_lt hlt)]
    case isFalse hge =>
      rw [Nat.max_eq_left (Nat.not_lt.mp hge)]

/-- C4 witness: a term-mismatched commit is ignored, a matching one
advances `committed` to `min(tocommit, lastIndex())`, and `committed`
never decreases. -/
theorem c4_witness :
    lS1.commitTo 9 3 = lS1 ∧
    lS1.commitTo 1 9 = { lS1 with committed := 3 } ∧
    lS1.committed ≤ (lS1.commitTo 1 9).committed :=
  ⟨(c4_commitTo lS1 9 3).1 (by decide),
   (c4_commitTo lS1 1 9).2.1 (by decide),
   (c4_commitTo lS1 1 9).2.2⟩

/-- C5: `restore(s)` sets `committed := s.lastIncludedIndex`, replaces
the unstable buffer with the pending snapshot, leaves `applying`,
`applied`, `applyingEntsSize`, `applyingEntsPaused`,
`maxApplyingEntsSize`, `leaderTerm` (and Storage) unchanged, and makes
`firstIndex() = s.lastIncludedIndex + 1`. -/
theorem c5_restore_frame :
    ∀ (l : RaftLog) (s : Snapshot),
      (l.restore s).committed = s.index ∧
      (l.restore s).unstable =
        { entries := [], offset := s.index + 1, offsetInProgress := s.index + 1,
          snapshot := some s, snapshotInProgress := false } ∧
      (l.restore s).applying = l.applying ∧
      (l.restore s).applied = l.applied ∧
      (l.restore s).applyingEntsSize = l.applyingEntsSize ∧
      (l.restore s).applyingEntsPaused = l.applyingEntsPaused ∧
      (l.restore s).maxApplyingEntsSize = l.maxApplyingEntsSize ∧
      (l.restore s).leaderTerm = l.leaderTerm ∧
      (l.restore s).storage = l.storage ∧
      (l.restore s).firstIndex = s.index + 1 :=
  fun _ _ => ⟨rfl, rfl, rfl, rfl, rfl, rfl, rfl, rfl, rfl, rfl⟩

/-- C6: `nextCommittedEnts` is empty whenever application is paused, an
unstable snapshot is pending or in progress, or the range
`(applying, maxAppliableIndex]` is empty; a non-empty result implies a
strictly positive remaining budget, and an exhausted budget with a
non-empty range is fatal. -/
theorem c6_nextCommittedEnts :
    (∀ (l : RaftLog) (au : Bool),
      l.applyingEntsPaused = true ∨ l.unstable.snapshot.isSome = true ∨
        l.maxAppliableIndex au ≤ l.applying →
      l.nextCommittedEnts au = some []) ∧
    (∀ (l : RaftLog) (au : Bool) (es : List Entry),
      l.nextCommittedEnts au = some es → es ≠ [] →
      l.applyingEntsSize < l.maxApplyingEntsSize) ∧
    (∀ (l : RaftLog) (au : Bool),
      l.applyingEntsPaused = false → l.unstable.snapshot = none →
      l.applying < l.maxAppliableIndex au →
      l.maxApplyingEntsSize ≤ l.applyingEntsSize →
      l.nextCommittedEnts au = none) := by
  refine ⟨?_, ?_, ?_⟩
  · intro l au h
    unfold RaftLog.nextCommittedEnts
    by_cases hp : l.applyingEntsPaused
    · rw [if_pos hp]
    · rw [if_neg hp]
      by_cases hs : l.hasNextOrInProgressSnapshot
      · rw [if_pos hs]
      · rw [if_neg hs]
        have hr : l.maxAppliableIndex au ≤ l.applying := by
          rcases h with h | h | h
          · exact absurd h hp
          · exact absurd h (by simpa [RaftLog.hasNextOrInProgressSnapshot] using hs)
          · exact h
        rw [if_pos (by omega)]
  · intro l au es h hne
    unfold RaftLog.nextCommittedEnts at h
    split at h
    · exact absurd (Option.some.inj h).symm hne
    · split at h
      · exact absurd (Option.some.inj h).symm hne
      · split at h
        · exact absurd (Option.some.inj h).symm hne
        · split at h
          · exact absurd h (by simp)
          case isFalse hbud => omega
  · intro l au hp hs hr hb
    unfold RaftLog.nextCommittedEnts
    rw [if_neg (by simp [hp]), if_neg (by simp [RaftLog.hasNextOrInProgressSnapshot, hs]),
      if_neg (by omega), if_pos (by omega)]

/-- C6 witness: a paused state returns empty; an unpaused state with
budget left returns the two committed entries, with a strictly positive
budget; the same state with its budget consumed is fatal. -/
theorem c6_witness :
    ({ lNC with applyingEntsPaused := true } : RaftLog).nextCommittedEnts true = some [] ∧
    lNC.nextCommittedEnts true = some [⟨2, 1, 1⟩, ⟨3, 1, 1⟩] ∧
    lNC.applyingEntsSize < lNC.maxApplyingEntsSize ∧
    ({ lNC with applyingEntsSize := 10 } : RaftLog).nextCommittedEnts true = none :=
  ⟨c6_nextCommittedEnts.1 _ true (Or.inl rfl),
   rfl,
   c6_nextCommittedEnts.2.1 lNC true [⟨2, 1, 1⟩, ⟨3, 1, 1⟩] rfl (by decide),
   c6_nextCommittedEnts.2.2 _ true rfl rfl (by decide) (by decide)⟩

/-- C7: `term(i)` answers from the unstable buffer when covered;
otherwise `Compacted` below `firstIndex()-1`, `Unavailable` above
`lastIndex()`, and inside the valid range exactly `Storage.Term(i)`
(whose `Compacted`/`Unavailable` errors propagate; the modelled Storage
raises no other error, which in the source would be fatal). -/
theorem c7_term_queries :
    (∀ (l : RaftLog) (i t : Nat), l.unstable.maybeTerm i = some t → l.term i = .ok t) ∧
    (∀ (l : RaftLog) (i : Nat), l.unstable.maybeTerm i = none →
      i < l.firstIndex - 1 → l.term i = .error .compacted) ∧
    (∀ (l : RaftLog) (i : Nat), l.unstable.maybeTerm i = none →
      ¬ i < l.firstIndex - 1 → l.lastIndex < i → l.term i = .error .unavailable) ∧
    (∀ (l : RaftLog) (i : Nat), l.unstable.maybeTerm i = none →
      ¬ i < l.firstIndex - 1 → ¬ l.lastIndex < i → l.term i = l.storage.termS i) := by
  refine ⟨?_, ?_, ?_, ?_⟩
  · intro l i t h
    unfold RaftLog.term
    rw [h]
  · intro l i h hc
    have hone := one_le_firstIndex l
    unfold RaftLog.term
    rw [h, if_pos (by omega)]
  · intro l i h hc hu
    have hone := one_le_firstIndex l
    unfold RaftLog.term
    rw [h, if_neg (by omega), if_pos hu]
  · intro l i h hc hu
    have hone := one_le_firstIndex l
    unfold RaftLog.term
    rw [h, if_neg (by omega), if_neg hu]

/-- C7 witness: on a log with a compacted region, stable entries and an
unstable entry, the four behaviours at indices 5, 1, 6 and 3. -/
theorem c7_witness :
    lW7.term 5 = .ok 3 ∧ lW7.term 1 = .error .compacted ∧
    lW7.term 6 = .error .unavailable ∧ lW7.term 3 = lW7.storage.termS 3 :=
  ⟨c7_term_queries.1 lW7 5 3 (by decide),
   c7_term_queries.2.1 lW7 1 (by decide) (by decide),
   c7_term_queries.2.2.1 lW7 6 (by decide) (by decide) (by decide),
   c7_term_queries.2.2.2 lW7 3 (by decide) (by decide) (by decide)⟩

/-- C8 counterexample: at a lower bound two past `lastIndex()`,
`entries` returns an empty success while `slice(i, lastIndex()+1, m)` is
fatal, so the two do not return the same result for every `i`. -/
theorem c8_counterexample :
    lNC.lastIndex + 1 < 5 ∧ lNC.entries 5 100 = some (.ok []) ∧
    lNC.slice 5 (lNC.lastIndex + 1) 100 = none :=
  ⟨by decide, rfl, rfl⟩

/-- C8 (amended): `entries(i, maxBytes)` equals
`slice(i, lastIndex()+1, maxBytes)` whenever `i ≤ lastIndex()`; above
`lastIndex()` it short-circuits to an empty success (whereas `slice`
would be fatal for a lower bound above `lastIndex()+1`). -/
theorem c8_entries_slice :
    ∀ (l : RaftLog) (i m : Nat),
      (i ≤ l.lastIndex → l.entries i m = l.slice i (l.lastIndex + 1) m) ∧
      (l.lastIndex < i → l.entries i m = some (.ok [])) := by
  intro l i m
  constructor
  · intro h
    unfold RaftLog.entries
    rw [if_neg (by omega)]
  · intro h
    unfold RaftLog.entries
    rw [if_pos h]

/-- C8 witness: the agreement at a concrete in-range index and the empty
success at a concrete out-of-range index. -/
theorem c8_witness :
    lNC.entries 2 100 = lNC.slice 2 (lNC.lastIndex + 1) 100 ∧
    lNC.entries 5 100 = some (.ok []) :=
  ⟨(c8_entries_slice lNC 2 100).1 (by decide),
   (c8_entries_slice lNC 5 100).2 (by decide)⟩

/-- C9: `findConflictByTerm(index, term)` returns the largest positive
`j ≤ index` whose term is unknown or at most `term` — every `k` with
`j < k ≤ index` fails the predicate, and a positive `j` satisfies it —
paired with `term(j)` when known and 0 otherwise (and `(0, 0)` when no
positive index qualifies); on scenario S6 it returns `(3, 3)` and
`(1, 1)`. -/
theorem c9_findConflictByTerm :
    (∀ (l : RaftLog) (index term : Nat),
      (l.findConflictByTerm index term).1 ≤ index ∧
      (∀ k, (l.findConflictByTerm index term).1 < k → k ≤ index →
        unknownOrLE l term k = false) ∧
      (0 < (l.findConflictByTerm index term).1 →
        unknownOrLE l term (l.findConflictByTerm index term).1 = true ∧
        (l.findConflictByTerm index term).2 =
          zeroTermOnOutOfBounds (l.term (l.findConflictByTerm index term).1)) ∧
      ((l.findConflictByTerm index term).1 = 0 →
        (l.findConflictByTerm index term).2 = 0)) ∧
    logS6.findConflictByTerm 4 4 = (3, 3) ∧
    logS6.findConflictByTerm 4 2 = (1, 1) :=
  ⟨fun l index term => fcbt_spec l term index, rfl, rfl⟩

/-- C9 witness: on scenario S6 with `term = 4`, the returned index 3
satisfies the predicate with its exact term, and the skipped index 4
fails it. -/
theorem c9_witness :
    unknownOrLE logS6 4 3 = true ∧
    (3 : Nat) = zeroTermOnOutOfBounds (logS6.term 3) ∧
    unknownOrLE logS6 4 4 = false :=
  ⟨((c9_findConflictByTerm.1 logS6 4 4).2.2.1 (by decide)).1,
   ((c9_findConflictByTerm.1 logS6 4 4).2.2.1 (by decide)).2,
   (c9_findConflictByTerm.1 logS6 4 4).2.1 4 (by decide) (by decide)⟩

/-- C10: `maybeCommit(leaderTerm, maxIndex, term)` returns true whenever
`maxIndex > committed`, `term ≠ 0` and the log's term at `maxIndex`
(out-of-bounds read as 0) equals `term`; it merely calls `commitTo`,
which silently ignores the update when `leaderTerm` mismatches, so a true
return does not guarantee `committed ≥ maxIndex` afterwards. -/
theorem c10_maybeCommit :
    ∀ (l : RaftLog) (lt mi t : Nat),
      l.committed < mi → t ≠ 0 → zeroTermOnOutOfBounds (l.term mi) = t →
      (l.maybeCommit lt mi t).2 = true ∧
      (l.maybeCommit lt mi t).1 = l.commitTo lt mi ∧
      (lt ≠ l.leaderTerm → (l.maybeCommit lt mi t).1.committed = l.committed ∧
        (l.maybeCommit lt mi t).1.committed < mi) := by
  intro l lt mi t h1 h2 h3
  unfold RaftLog.maybeCommit
  rw [if_pos ⟨h1, h2, h3⟩]
  refine ⟨rfl, rfl, fun hne => ?_⟩
  show (l.commitTo lt mi).committed = l.committed ∧ (l.commitTo lt mi).committed < mi
  unfold RaftLog.commitTo
  rw [if_pos hne]
  exact ⟨rfl, h1⟩

/-- C10 witness: with `committed = 1`, `maybeCommit 9 2 1` returns true
while the term-mismatched `commitTo` leaves `committed = 1 < 2`. -/
theorem c10_witness :
    (lW10.maybeCommit 9 2 1).2 = true ∧
    (lW10.maybeCommit 9 2 1).1.committed = lW10.committed ∧
    (lW10.maybeCommit 9 2 1).1.committed < 2 := by
  have h := c10_maybeCommit lW10 9 2 1 (by decide) (by decide) (by decide)
  exact ⟨h.1, (h.2.2 (by decide)).1, (h.2.2 (by decide)).2⟩
